import Mathlib

/-
Shallow embedding of the configurator tool (Go): a synchronizer between a
local filesystem subtree and a ZooKeeper-style remote namespace.  Two source
versions are embedded where they differ: src/configurator.go (the V1
definitions, which log through the standard logger) and src/unnamed/part_000
(the V2 definitions, which log through stdout and lack the modification-time
logic of V1's download).

Modelling conventions:
* Remote and local paths are lists of name components; the namespace root "/"
  is [] and path.Join(p, child) for a plain child name is p ++ [child].  A
  separate character-level model of Go's path package (goClean, goJoin,
  goDir) is used for the claims that are about the string computations
  themselves (path mapping and ancestor-ensure recursion).
* Byte payloads are List Nat; time.Time values are wall-clock instants
  (seconds and nanoseconds since the epoch, nonnegative in every scenario
  the tool meets, so Nat suffices).
* The ZooKeeper connection is modelled by a concrete namespace tree plus a
  list cf of paths on which a concurrent writer has bumped the data version
  between this run's read and its conditional write; Set/Delete on such a
  path is rejected with a version conflict.  This is how the service's
  optimistic-concurrency rejections reach the embedded code: in a strictly
  sequential run without interference they cannot occur.
* Each run returns its final state, an Outcome (normal return, log.Fatalf
  exit, or panic) and a trace of the remote calls, local filesystem
  operations and log lines it performed, in order.
-/

namespace Configurator

/-- A wall-clock instant as Go's time.Time exposes it here: seconds and
nanoseconds since the Unix epoch.  time.Unix(s, 0) is ⟨s, 0⟩. -/
structure GoTime where
  sec : Nat
  nsec : Nat
deriving DecidableEq, Repr

/-- Go's t.After(u): strict instant order. -/
def GoTime.after (t u : GoTime) : Bool :=
  u.sec < t.sec || (u.sec == t.sec && u.nsec < t.nsec)

/-- The instant as milliseconds since the epoch (for comparing against a
remote node's millisecond timestamp). -/
def GoTime.toMs (t : GoTime) : Nat :=
  t.sec * 1000 + t.nsec / 1000000

/-- A path in either namespace, as its list of name components; the root "/"
is []. -/
abbrev ZPath := List String

/-- Rendering of a component path for log lines. -/
def pathStr (p : ZPath) : String :=
  "/" ++ String.intercalate "/" p

/-- A node of the remote namespace: payload bytes, data version, modification
time in milliseconds since the epoch (Stat.Mtime) and named children.  This
is the state a ZooKeeper server holds for the paths the tool touches. -/
inductive ZTree where
  | node (data : List Nat) (version : Nat) (mtime : Nat)
      (children : List (String × ZTree))

def ZTree.data : ZTree → List Nat
  | .node d _ _ _ => d

def ZTree.version : ZTree → Nat
  | .node _ v _ _ => v

def ZTree.mtime : ZTree → Nat
  | .node _ _ m _ => m

def ZTree.children : ZTree → List (String × ZTree)
  | .node _ _ _ cs => cs

/-- First-match association lookup (ZooKeeper guarantees distinct child
names, see ZTree.wfB). -/
def lookupAssoc : List (String × ZTree) → String → Option ZTree
  | [], _ => none
  | (m, c) :: rest, n => if m = n then some c else lookupAssoc rest n

/-- Resolve a path in the namespace. -/
def lookupZ : ZTree → ZPath → Option ZTree
  | t, [] => some t
  | t, n :: p =>
      match lookupAssoc t.children n with
      | none => none
      | some c => lookupZ c p

/-- Errors of the remote service that the tool distinguishes. -/
inductive ZErr where
  | noNode
  | nodeExists
  | badVersion
  | notEmpty
deriving DecidableEq, Repr

def zerrStr : ZErr → String
  | .noNode => "zk: node does not exist"
  | .nodeExists => "zk: node already exists"
  | .badVersion => "zk: version conflict"
  | .notEmpty => "zk: node has children"

def exceptOk {ε α : Type} : Except ε α → Bool
  | .ok _ => true
  | .error _ => false

def exceptD {ε α : Type} (d : α) : Except ε α → α
  | .ok a => a
  | .error _ => d

mutual
/-- Service-side delete of the node at a path (ZooKeeper: fails with noNode
if absent, notEmpty if the node still has children; the root cannot be
deleted). -/
def zkDeleteAt : ZTree → ZPath → Except ZErr ZTree
  | _, [] => .error .notEmpty
  | .node d v m cs, n :: p =>
      (zkDelKids cs n p).map (fun cs2 => .node d v m cs2)

def zkDelKids : List (String × ZTree) → String → ZPath → Except ZErr (List (String × ZTree))
  | [], _, _ => .error .noNode
  | (m0, c) :: rest, n, p =>
      if m0 = n then
        match p, c with
        | [], .node _ _ _ [] => .ok rest
        | [], .node _ _ _ (_ :: _) => .error .notEmpty
        | q :: qs, _ => (zkDeleteAt c (q :: qs)).map (fun c2 => (m0, c2) :: rest)
      else (zkDelKids rest n p).map (fun r => (m0, c) :: r)
end

/-- The delete call as the connection performs it: existence first, then the
optimistic version check (cf lists the paths a concurrent writer has bumped
since our read), then the structural check. -/
def zkDelete (cf : List ZPath) (t : ZTree) (p : ZPath) : Except ZErr ZTree :=
  match lookupZ t p with
  | none => .error .noNode
  | some _ => if p ∈ cf then .error .badVersion else zkDeleteAt t p

mutual
/-- Service-side create: the parent chain must exist and the node must be
absent.  The service assigns version 0; the service-assigned creation
timestamp is abstracted to 0 (no claim reads a timestamp written by upload). -/
def zkCreateAt : ZTree → ZPath → List Nat → Except ZErr ZTree
  | _, [], _ => .error .nodeExists
  | .node d v m cs, [n], nd =>
      if (lookupAssoc cs n).isSome then .error .nodeExists
      else .ok (.node d v m (cs ++ [(n, .node nd 0 0 [])]))
  | .node d v m cs, n :: q :: p, nd =>
      (zkCreateKids cs n (q :: p) nd).map (fun cs2 => .node d v m cs2)

def zkCreateKids : List (String × ZTree) → String → ZPath → List Nat → Except ZErr (List (String × ZTree))
  | [], _, _, _ => .error .noNode
  | (m0, c) :: rest, n, p, nd =>
      if m0 = n then (zkCreateAt c p nd).map (fun c2 => (m0, c2) :: rest)
      else (zkCreateKids rest n p nd).map (fun r => (m0, c) :: r)
end

mutual
/-- Service-side set of an existing node's payload, bumping the data
version. -/
def zkSetAt : ZTree → ZPath → List Nat → Except ZErr ZTree
  | .node _ v m cs, [], nd => .ok (.node nd (v + 1) m cs)
  | .node d v m cs, n :: p, nd =>
      (zkSetKids cs n p nd).map (fun cs2 => .node d v m cs2)

def zkSetKids : List (String × ZTree) → String → ZPath → List Nat → Except ZErr (List (String × ZTree))
  | [], _, _, _ => .error .noNode
  | (m0, c) :: rest, n, p, nd =>
      if m0 = n then (zkSetAt c p nd).map (fun c2 => (m0, c2) :: rest)
      else (zkSetKids rest n p nd).map (fun r => (m0, c) :: r)
end

/-- Where a log line is written: src/configurator.go uses the standard
logger, src/unnamed/part_000 uses stdout (fmt.Printf). -/
inductive Sink where
  | stdlog
  | stdout
deriving DecidableEq, Repr

/-- One observable step of a run: a remote-namespace call, a local
filesystem operation, or a log line. -/
inductive Event where
  | children (p : ZPath) (found : Bool)
  | getData (p : ZPath) (found : Bool)
  | existsCall (p : ZPath)
  | createCall (p : ZPath) (data : List Nat) (ok : Bool)
  | setCall (p : ZPath) (data : List Nat) (version : Nat) (ok : Bool)
  | deleteCall (p : ZPath) (version : Nat) (ok : Bool)
  | mkdirCall (p : ZPath) (ok : Bool)
  | writeFile (p : ZPath) (data : List Nat)
  | chtimesCall (p : ZPath) (t : GoTime)
  | readFile (p : ZPath)
  | statCall (p : ZPath) (found : Bool)
  | logMsg (s : Sink) (text : String)
deriving DecidableEq, Repr

/-- The remote-namespace calls among the events (what the coordination
service observes). -/
def Event.isRemote : Event → Bool
  | .children _ _ => true
  | .getData _ _ => true
  | .existsCall _ => true
  | .createCall _ _ _ => true
  | .setCall _ _ _ _ => true
  | .deleteCall _ _ _ => true
  | _ => false

/-- The events that mutate the local filesystem. -/
def Event.isLocalMut : Event → Bool
  | .mkdirCall _ _ => true
  | .writeFile _ _ => true
  | .chtimesCall _ _ => true
  | _ => false

def Event.isSet : Event → Bool
  | .setCall _ _ _ _ => true
  | _ => false

/-- How a run ends: normal return, termination through log.Fatalf, or a
panic. -/
inductive Outcome where
  | ok
  | fatalExit (msg : String)
  | panicked (msg : String)
deriving DecidableEq, Repr

/-- Result of a delete run: final remote state, trace, outcome. -/
structure DelRes where
  remote : ZTree
  trace : List Event
  out : Outcome

mutual
/-- doDelete from src/configurator.go (lines 19-36), run on the subtree snap
that the service reports at p, threading the live namespace w.  The version
passed to Delete is the one read by the Children call at the top of this
recursion level (stat.Version, line 20/35); the result of c.Delete is
discarded exactly as in the source (line 35), so a failed delete leaves the
node in place and the run continues.  The source's panic on an unexpected
Children error (line 26) is unreachable against this service model. -/
def doDeleteGoV1 (cf : List ZPath) (p : ZPath) (snap : ZTree) (w : ZTree) :
    ZTree × List Event :=
  match snap with
  | .node _ v _ cs =>
      let r := doDeleteKidsV1 cf p cs w
      let res := zkDelete cf r.1 p
      (exceptD r.1 res,
        Event.children p true ::
          r.2 ++ [Event.logMsg .stdlog ("Will delete " ++ pathStr p),
                  Event.deleteCall p v (exceptOk res)])

def doDeleteKidsV1 (cf : List ZPath) (p : ZPath)
    (cs : List (String × ZTree)) (w : ZTree) : ZTree × List Event :=
  match cs with
  | [] => (w, [])
  | (n, c) :: rest =>
      let r1 := doDeleteGoV1 cf (p ++ [n]) c w
      let r2 := doDeleteKidsV1 cf p rest r1.1
      (r2.1, r1.2 ++ r2.2)
end

/-- doDelete from src/configurator.go, entered at path p of the namespace w.
The only early return is the benign ErrNoNode case (lines 22-25); every
completed run ends with Outcome.ok because the delete error itself is
discarded. -/
def doDeleteV1 (cf : List ZPath) (w : ZTree) (p : ZPath) : DelRes :=
  match lookupZ w p with
  | none =>
      ⟨w, [Event.children p false,
           Event.logMsg .stdlog ("Path " ++ pathStr p ++ " not there")], .ok⟩
  | some snap =>
      let r := doDeleteGoV1 cf p snap w
      ⟨r.1, r.2, .ok⟩

mutual
/-- doDelete from src/unnamed/part_000 (lines 18-34): identical remote
behaviour, but the progress messages go to stdout via fmt.Printf. -/
def doDeleteGoV2 (cf : List ZPath) (p : ZPath) (snap : ZTree) (w : ZTree) :
    ZTree × List Event :=
  match snap with
  | .node _ v _ cs =>
      let r := doDeleteKidsV2 cf p cs w
      let res := zkDelete cf r.1 p
      (exceptD r.1 res,
        Event.children p true ::
          r.2 ++ [Event.logMsg .stdout ("Will delete " ++ pathStr p),
                  Event.deleteCall p v (exceptOk res)])

def doDeleteKidsV2 (cf : List ZPath) (p : ZPath)
    (cs : List (String × ZTree)) (w : ZTree) : ZTree × List Event :=
  match cs with
  | [] => (w, [])
  | (n, c) :: rest =>
      let r1 := doDeleteGoV2 cf (p ++ [n]) c w
      let r2 := doDeleteKidsV2 cf p rest r1.1
      (r2.1, r1.2 ++ r2.2)
end

/-- doDelete from src/unnamed/part_000, entered at path p. -/
def doDeleteV2 (cf : List ZPath) (w : ZTree) (p : ZPath) : DelRes :=
  match lookupZ w p with
  | none =>
      ⟨w, [Event.children p false,
           Event.logMsg .stdout ("Path " ++ pathStr p ++ " not there")], .ok⟩
  | some snap =>
      let r := doDeleteGoV2 cf p snap w
      ⟨r.1, r.2, .ok⟩

/-- The path of a delete call, for extracting the deletion order from a
trace. -/
def deletedPath : Event → Option ZPath
  | .deleteCall p _ _ => some p
  | _ => none

mutual
/-- Post-order listing of the paths of a subtree rooted at p: every child
block in order, then p itself. -/
def postorder (p : ZPath) : ZTree → List ZPath
  | .node _ _ _ cs => postKids p cs ++ [p]

def postKids (p : ZPath) : List (String × ZTree) → List ZPath
  | [] => []
  | (n, c) :: rest => postorder (p ++ [n]) c ++ postKids p rest
end

def nodupB : List String → Bool
  | [] => true
  | n :: rest => (decide (n ∉ rest)) && nodupB rest

mutual
/-- Well-formedness of a namespace snapshot: sibling names are distinct at
every level (ZooKeeper guarantees this for real namespaces). -/
def ZTree.wfB : ZTree → Bool
  | .node _ _ _ cs => nodupB (cs.map Prod.fst) && ZTree.wfKidsB cs

def ZTree.wfKidsB : List (String × ZTree) → Bool
  | [] => true
  | (_, c) :: rest => c.wfB && ZTree.wfKidsB rest
end

/-- Result of an upload run: final remote state, trace, outcome. -/
structure UpRes where
  remote : ZTree
  trace : List Event
  out : Outcome

/-- What filepath.Walk reports to the visit function for one local entry:
a regular file with its content, a directory, or anything else (symlink,
device, ...). -/
inductive EntryKind where
  | fileK (content : List Nat)
  | dirK
  | otherK

/-- The visit function of doUpload in src/configurator.go (lines 63-113) for
one visited entry: vp is the visited local path (for log lines and the local
read), rp the mapped remote path, cf the version-conflict fault set.  A
non-regular non-directory entry is logged and skipped; a directory is
created or left alone; a file is created, or - when the remote node already
exists - overwritten by Set with the version read by Exists, unless the
remote node has children, which panics (lines 96-98). -/
def uploadVisit (cf : List ZPath) (w : ZTree) (vp rp : ZPath) (k : EntryKind) : UpRes :=
  match k with
  | .otherK =>
      ⟨w, [Event.logMsg .stdlog ("Node is not a regular file: " ++ pathStr vp)], .ok⟩
  | .dirK =>
      match zkCreateAt w rp [] with
      | .ok w2 =>
          ⟨w2, [Event.createCall rp [] true,
                Event.logMsg .stdlog ("Copied " ++ pathStr vp ++ " -> " ++ pathStr rp)], .ok⟩
      | .error .nodeExists =>
          ⟨w, [Event.createCall rp [] false,
               Event.logMsg .stdlog ("Dir already there: " ++ pathStr rp)], .ok⟩
      | .error e => ⟨w, [Event.createCall rp [] false], .panicked (zerrStr e)⟩
  | .fileK content =>
      match zkCreateAt w rp content with
      | .ok w2 =>
          ⟨w2, [Event.readFile vp, Event.createCall rp content true,
                Event.logMsg .stdlog ("Copied " ++ pathStr vp ++ " -> " ++ pathStr rp)], .ok⟩
      | .error .nodeExists =>
          match lookupZ w rp with
          | none =>
              -- unreachable here: Create just reported the node as existing
              ⟨w, [Event.readFile vp, Event.createCall rp content false,
                   Event.existsCall rp], .panicked (zerrStr .noNode)⟩
          | some (.node _ nv _ ncs) =>
              if 0 < ncs.length then
                ⟨w, [Event.readFile vp, Event.createCall rp content false,
                     Event.existsCall rp],
                  .panicked ("Remote path is a dir when a file is expected: " ++ pathStr rp)⟩
              else if rp ∈ cf then
                ⟨w, [Event.readFile vp, Event.createCall rp content false,
                     Event.existsCall rp, Event.setCall rp content nv false],
                  .panicked (zerrStr .badVersion)⟩
              else
                match zkSetAt w rp content with
                | .ok w2 =>
                    ⟨w2, [Event.readFile vp, Event.createCall rp content false,
                          Event.existsCall rp, Event.setCall rp content nv true,
                          Event.logMsg .stdlog ("Overwrote " ++ pathStr vp ++ " -> " ++ pathStr rp)], .ok⟩
                | .error e =>
                    ⟨w, [Event.readFile vp, Event.createCall rp content false,
                         Event.existsCall rp, Event.setCall rp content nv false],
                      .panicked (zerrStr e)⟩
      | .error e =>
          ⟨w, [Event.readFile vp, Event.createCall rp content false], .panicked (zerrStr e)⟩

/-- A local filesystem subtree as filepath.Walk sees it: regular files with
their content, directories with (lexically ordered) named children, and
unsupported entry kinds. -/
inductive LTree where
  | fileT (content : List Nat)
  | dirT (children : List (String × LTree))
  | otherT

mutual
/-- The pre-order walk of doUpload (filepath.Walk, line 114): visit the
entry, then descend into the children of a directory; a panic unwinds the
whole walk. -/
def uploadWalk (cf : List ZPath) (w : ZTree) (vp rp : ZPath) (t : LTree) : UpRes :=
  let k := match t with
    | .fileT c => EntryKind.fileK c
    | .dirT _ => EntryKind.dirK
    | .otherT => EntryKind.otherK
  let r := uploadVisit cf w vp rp k
  match r.out with
  | .ok =>
      match t with
      | .dirT cs =>
          let r2 := uploadKids cf r.remote vp rp cs
          ⟨r2.remote, r.trace ++ r2.trace, r2.out⟩
      | _ => r
  | _ => r

def uploadKids (cf : List ZPath) (w : ZTree) (vp rp : ZPath) :
    List (String × LTree) → UpRes
  | [] => ⟨w, [], .ok⟩
  | (n, c) :: rest =>
      let r1 := uploadWalk cf w (vp ++ [n]) (rp ++ [n]) c
      match r1.out with
      | .ok =>
          let r2 := uploadKids cf r1.remote vp rp rest
          ⟨r2.remote, r1.trace ++ r2.trace, r2.out⟩
      | _ => r1
end

/-- ensureRemotePath from src/configurator.go (lines 38-52) in the
component-path model: ensure every ancestor, then create the path itself,
tolerating "already exists".  The recursion bottoms out at the namespace
root [] ("/"). -/
def ensureL (w : ZTree) (p : ZPath) : ZTree × List Event × Outcome :=
  if h : p = [] then (w, [], .ok)
  else
    let r := ensureL w p.dropLast
    match r.2.2 with
    | .ok =>
        match zkCreateAt r.1 p [] with
        | .ok w2 => (w2, r.2.1 ++ [Event.createCall p [] true], .ok)
        | .error .nodeExists =>
            (r.1, r.2.1 ++ [Event.createCall p [] false,
                            Event.logMsg .stdlog ("Dir already created: " ++ pathStr p)], .ok)
        | .error e => (r.1, r.2.1 ++ [Event.createCall p [] false], .panicked (zerrStr e))
    | o => r
termination_by p.length
decreasing_by
  simp only [List.length_dropLast]
  have : 0 < p.length := List.length_pos.mpr h
  omega

/-- doUpload from src/configurator.go (lines 54-117): ensure the remote
root, then walk the local tree rooted at the resolved absolute local path,
visiting each entry with uploadVisit. -/
def doUpload (cf : List ZPath) (w : ZTree) (srvPre absLocal : ZPath) (t : LTree) : UpRes :=
  let r := ensureL w srvPre
  match r.2.2 with
  | .ok =>
      let r2 := uploadWalk cf r.1 absLocal srvPre t
      ⟨r2.remote, r.2.1 ++ r2.trace, r2.out⟩
  | o => ⟨r.1, r.2.1, o⟩

/-- A local filesystem entry: a directory or a regular file, each with a
modification time. -/
inductive LEntry where
  | dirE (mtime : GoTime)
  | fileE (content : List Nat) (mtime : GoTime)
deriving DecidableEq, Repr

def LEntry.mtimeOf : LEntry → GoTime
  | .dirE t => t
  | .fileE _ t => t

/-- The local filesystem as a finite map from paths to entries; the
filesystem root [] is an implicit, always-present directory. -/
abbrev LocalFS := List (ZPath × LEntry)

def lookupL : LocalFS → ZPath → Option LEntry
  | [], _ => none
  | (q, e) :: rest, p => if q = p then some e else lookupL rest p

def setL (fs : LocalFS) (p : ZPath) (e : LEntry) : LocalFS :=
  (p, e) :: fs.filter (fun q => q.1 ≠ p)

def isDirAt (fs : LocalFS) (p : ZPath) : Bool :=
  match lookupL fs p with
  | some (.dirE _) => true
  | _ => false

/-- Whether the parent directory of p exists (the filesystem root always
does). -/
def parentOkB (fs : LocalFS) (p : ZPath) : Bool :=
  p.dropLast.isEmpty || isDirAt fs p.dropLast

/-- os.Mkdir: creating over any existing entry fails with an exists error
that the caller treats as benign; a missing parent is fatal.  The new
directory is stamped with the current clock now. -/
def osMkdir (sink : Sink) (fs : LocalFS) (lp : ZPath) (now : GoTime) :
    LocalFS × List Event × Outcome :=
  if (lookupL fs lp).isSome || lp.isEmpty then
    (fs, [Event.mkdirCall lp false,
          Event.logMsg sink ("Local dir already present: " ++ pathStr lp)], .ok)
  else if parentOkB fs lp then
    (setL fs lp (.dirE now), [Event.mkdirCall lp true,
          Event.logMsg sink ("Created local dir: " ++ pathStr lp)], .ok)
  else
    (fs, [Event.mkdirCall lp false],
      .panicked ("mkdir " ++ pathStr lp ++ ": no such file or directory"))

/-- ioutil.WriteFile: overwrites a regular file (stamping the current
clock), fails on a directory or under a missing parent. -/
def osWriteFile (fs : LocalFS) (lp : ZPath) (data : List Nat) (now : GoTime) :
    LocalFS × List Event × Outcome :=
  match lookupL fs lp with
  | some (.dirE _) =>
      (fs, [Event.writeFile lp data],
        .panicked ("open " ++ pathStr lp ++ ": is a directory"))
  | some (.fileE _ _) =>
      (setL fs lp (.fileE data now), [Event.writeFile lp data], .ok)
  | none =>
      if parentOkB fs lp && !lp.isEmpty then
        (setL fs lp (.fileE data now), [Event.writeFile lp data], .ok)
      else
        (fs, [Event.writeFile lp data],
          .panicked ("open " ++ pathStr lp ++ ": no such file or directory"))

/-- os.Chtimes: set the modification time of an existing entry. -/
def osChtimes (fs : LocalFS) (lp : ZPath) (t : GoTime) :
    LocalFS × List Event × Outcome :=
  match lookupL fs lp with
  | some (.fileE c _) => (setL fs lp (.fileE c t), [Event.chtimesCall lp t], .ok)
  | some (.dirE _) => (setL fs lp (.dirE t), [Event.chtimesCall lp t], .ok)
  | none =>
      (fs, [Event.chtimesCall lp t],
        .panicked ("chtimes " ++ pathStr lp ++ ": no such file or directory"))

/-- Result of a download run: final local filesystem, trace, outcome. -/
structure DlRes where
  fs : LocalFS
  trace : List Event
  out : Outcome

/-- A rough rendering of an instant for the log lines of doDownload. -/
def timeStr (t : GoTime) : String :=
  toString t.sec ++ "." ++ toString t.nsec

/-- Lines 179-187 of src/configurator.go: write the remote payload to the
local file, then set its modification time to mtime with os.Chtimes. -/
def dlWriteV1 (fs : LocalFS) (lp : ZPath) (data : List Nat) (mtime now : GoTime)
    (tr : List Event) : DlRes :=
  let r1 := osWriteFile fs lp data now
  match r1.2.2 with
  | .ok =>
      let r2 := osChtimes r1.1 lp mtime
      match r2.2.2 with
      | .ok =>
          ⟨r2.1, tr ++ r1.2.1 ++ r2.2.1 ++
            [Event.logMsg .stdout ("Downloaded file: " ++ pathStr lp)], .ok⟩
      | o => ⟨r2.1, tr ++ r1.2.1 ++ r2.2.1, o⟩
  | o => ⟨r1.1, tr ++ r1.2.1, o⟩

mutual
/-- doDownload from src/configurator.go (lines 119-189), run on the subtree
snap the service holds at sp.  A node with empty payload is a directory:
create the local directory and recurse into the children.  A node with
non-empty payload is a file: compare time.Unix(stat.Mtime/1000, 0) with the
local modification time; return without writing only when they are equal
(line 171) - in both the "remote newer" and the "remote older" branch the
code falls through to the write (lines 172-185). -/
def doDownloadGoV1 (sp lp : ZPath) (fs : LocalFS) (now : GoTime) (snap : ZTree) : DlRes :=
  match snap with
  | .node data _ mt cs =>
      if data.length = 0 then
        let r1 := osMkdir .stdlog fs lp now
        match r1.2.2 with
        | .ok =>
            if 0 < cs.length then
              let r2 := dlKidsV1 sp lp now cs r1.1
              ⟨r2.fs, Event.getData sp true :: r1.2.1 ++
                 Event.children sp true :: r2.trace, r2.out⟩
            else ⟨r1.1, Event.getData sp true :: r1.2.1, .ok⟩
        | o => ⟨r1.1, Event.getData sp true :: r1.2.1, o⟩
      else
        let mtime : GoTime := ⟨mt / 1000, 0⟩
        let t0 := [Event.getData sp true,
                   Event.logMsg .stdlog ("Remote file was modified on: " ++ timeStr mtime)]
        match lookupL fs lp with
        | some e =>
            let lt := e.mtimeOf
            let t1 := t0 ++ [Event.statCall lp true,
                             Event.logMsg .stdlog ("Local file was modified on: " ++ timeStr lt)]
            if mtime = lt then
              ⟨fs, t1 ++ [Event.logMsg .stdlog "Files are the same"], .ok⟩
            else
              let t2 := t1 ++ [if mtime.after lt then
                                 Event.logMsg .stdlog "Remote file is newer, will overwrite"
                               else
                                 Event.logMsg .stdout ("Remote file is older than local file: " ++ pathStr lp)]
              dlWriteV1 fs lp data mtime now t2
        | none =>
            let t1 := t0 ++ [Event.statCall lp false,
                             Event.logMsg .stdlog "Local file does not exist"]
            dlWriteV1 fs lp data mtime now t1

def dlKidsV1 (sp lp : ZPath) (now : GoTime) (cs : List (String × ZTree))
    (fs : LocalFS) : DlRes :=
  match cs with
  | [] => ⟨fs, [], .ok⟩
  | (n, c) :: rest =>
      let r1 := doDownloadGoV1 (sp ++ [n]) (lp ++ [n]) fs now c
      match r1.out with
      | .ok =>
          let r2 := dlKidsV1 sp lp now rest r1.fs
          ⟨r2.fs, r1.trace ++ r2.trace, r2.out⟩
      | _ => r1
end

/-- doDownload from src/configurator.go entered at remote path sp: a missing
root is reported through log.Fatalf (line 124), which terminates the
process. -/
def doDownloadV1 (w : ZTree) (sp lp : ZPath) (fs : LocalFS) (now : GoTime) : DlRes :=
  match lookupZ w sp with
  | none =>
      ⟨fs, [Event.getData sp false,
            Event.logMsg .stdlog ("Path " ++ pathStr sp ++ " not there")],
        .fatalExit ("Path " ++ pathStr sp ++ " not there")⟩
  | some snap => doDownloadGoV1 sp lp fs now snap

mutual
/-- doDownload from src/unnamed/part_000 (lines 114-157): same directory
handling (logging to stdout), but a file node is always written - there is
no stat, no modification-time comparison and no Chtimes in this version. -/
def doDownloadGoV2 (sp lp : ZPath) (fs : LocalFS) (now : GoTime) (snap : ZTree) : DlRes :=
  match snap with
  | .node data _ _ cs =>
      if data.length = 0 then
        let r1 := osMkdir .stdout fs lp now
        match r1.2.2 with
        | .ok =>
            if 0 < cs.length then
              let r2 := dlKidsV2 sp lp now cs r1.1
              ⟨r2.fs, Event.getData sp true :: r1.2.1 ++
                 Event.children sp true :: r2.trace, r2.out⟩
            else ⟨r1.1, Event.getData sp true :: r1.2.1, .ok⟩
        | o => ⟨r1.1, Event.getData sp true :: r1.2.1, o⟩
      else
        let r1 := osWriteFile fs lp data now
        match r1.2.2 with
        | .ok =>
            ⟨r1.1, Event.getData sp true :: r1.2.1 ++
               [Event.logMsg .stdout ("Downloaded file: " ++ pathStr lp)], .ok⟩
        | o => ⟨r1.1, Event.getData sp true :: r1.2.1, o⟩

def dlKidsV2 (sp lp : ZPath) (now : GoTime) (cs : List (String × ZTree))
    (fs : LocalFS) : DlRes :=
  match cs with
  | [] => ⟨fs, [], .ok⟩
  | (n, c) :: rest =>
      let r1 := doDownloadGoV2 (sp ++ [n]) (lp ++ [n]) fs now c
      match r1.out with
      | .ok =>
          let r2 := dlKidsV2 sp lp now rest r1.fs
          ⟨r2.fs, r1.trace ++ r2.trace, r2.out⟩
      | _ => r1
end

/-- doDownload from src/unnamed/part_000 entered at remote path sp: a
missing root is reported through fmt.Printf and the function returns
normally (lines 118-121). -/
def doDownloadV2 (w : ZTree) (sp lp : ZPath) (fs : LocalFS) (now : GoTime) : DlRes :=
  match lookupZ w sp with
  | none =>
      ⟨fs, [Event.getData sp false,
            Event.logMsg .stdout ("Path " ++ pathStr sp ++ " not there")], .ok⟩
  | some snap => doDownloadGoV2 sp lp fs now snap

/-
Character-level model of the parts of Go's path package the tool uses:
path.Clean, path.Join and path.Dir.  Go strings are byte strings; the paths
here are ASCII, so a list of characters is a faithful rendering and Go's
byte slicing visitedPath[len(absLocal):] is List.drop.
-/

/-- A Go string as its character list. -/
abbrev GoStr := List Char

/-- strings.Split(s, "/"): the (possibly empty) segments of s between
slashes.  Split("", "/") is [""]. -/
def splitSlash : GoStr → List GoStr
  | [] => [[]]
  | c :: rest =>
      if c = '/' then [] :: splitSlash rest
      else
        match splitSlash rest with
        | [] => [[c]]
        | seg :: segs => (c :: seg) :: segs

/-- Joining segments with a slash between consecutive ones (the inverse of
splitSlash on slash-free segments). -/
def joinSegs : List GoStr → GoStr
  | [] => []
  | [s] => s
  | s :: r :: rest => s ++ '/' :: joinSegs (r :: rest)

/-- The element stack of path.Clean for a rooted path: empty and "."
segments vanish, ".." pops the last retained element (or vanishes at the
root). -/
def cleanAbs (acc : List GoStr) : List GoStr → List GoStr
  | [] => acc
  | s :: rest =>
      if s = [] ∨ s = ['.'] then cleanAbs acc rest
      else if s = ['.', '.'] then cleanAbs acc.dropLast rest
      else cleanAbs (acc ++ [s]) rest

/-- The element stack of path.Clean for an unrooted path: as cleanAbs, but a
".." that cannot pop is retained. -/
def cleanRel (acc : List GoStr) : List GoStr → List GoStr
  | [] => acc
  | s :: rest =>
      if s = [] ∨ s = ['.'] then cleanRel acc rest
      else if s = ['.', '.'] then
        if acc = [] ∨ acc.getLast? = some ['.', '.'] then cleanRel (acc ++ [s]) rest
        else cleanRel acc.dropLast rest
      else cleanRel (acc ++ [s]) rest

/-- path.Clean: lexical normalization; the empty path cleans to ".", a
rooted path stays rooted ("/" when nothing remains), an unrooted path with
nothing left cleans to ".". -/
def goClean (s : GoStr) : GoStr :=
  if s = [] then ['.']
  else if s.head? = some '/' then
    '/' :: joinSegs (cleanAbs [] (splitSlash s))
  else
    let r := cleanRel [] (splitSlash s)
    if r = [] then ['.'] else joinSegs r

/-- path.Join of two elements: empty elements are omitted and the
concatenation is cleaned; Join of nothing is "". -/
def goJoin (a b : GoStr) : GoStr :=
  if a = [] then (if b = [] then [] else goClean b)
  else if b = [] then goClean a
  else goClean (a ++ '/' :: b)

/-- path.Dir: everything up to and including the final slash, cleaned; a
path without a slash has directory ".". -/
def goDir (s : GoStr) : GoStr :=
  let segs := splitSlash s
  if segs.length ≤ 1 then goClean []
  else goClean (joinSegs segs.dropLast ++ ['/'])

/-- The canonical absolute path with the given components: "/" for [],
otherwise a slash-separated rooted rendering. -/
def renderAbs (cs : List GoStr) : GoStr :=
  '/' :: joinSegs cs

/-- A valid path component: nonempty, slash-free, and neither "." nor "..".
Every name filepath.Walk appends and every child name the remote service
returns has this shape. -/
def validSegB (s : GoStr) : Bool :=
  decide (s ≠ []) && decide ('/' ∉ s) && decide (s ≠ ['.']) && decide (s ≠ ['.', '.'])

/-- Line 73 of src/configurator.go: the remote path of a visited local path,
remotePath := path.Join(serverPref, visitedPath[len(absLocal):]). -/
def toRemote (absLocal srvPre visited : GoStr) : GoStr :=
  goJoin srvPre (visited.drop absLocal.length)

/-- The symmetric local-of-remote mapping of the spec's Path Mapper; the
download reconciler realizes it incrementally through
path.Join(localPref, child) (src/configurator.go lines 148-151). -/
def toLocal (absLocal srvPre remoteP : GoStr) : GoStr :=
  goJoin absLocal (remoteP.drop srvPre.length)

/-- Iterated path.Dir, the ancestor chain ensureRemotePath climbs. -/
def dirIter : Nat → GoStr → GoStr
  | 0, s => s
  | n + 1, s => dirIter n (goDir s)

/-- The recursion skeleton of ensureRemotePath (src/configurator.go lines
38-52) with explicit fuel: stop at "/", otherwise recurse on path.Dir and
then create the path itself (the benign create is abstracted to recording
the path; it does not influence the recursion).  none means the fuel ran
out before the base case was reached. -/
def ensureFuel : Nat → GoStr → Option (List GoStr)
  | 0, _ => none
  | n + 1, s =>
      if s = ['/'] then some []
      else
        match ensureFuel n (goDir s) with
        | none => none
        | some l => some (l ++ [s])

/-
Theorems.  Shared helper lemmas first, then one theorem per claim (with its
witness or counterexample where required).
-/

theorem lookupL_setL_self (fs : LocalFS) (p : ZPath) (e : LEntry) :
    lookupL (setL fs p e) p = some e := by
  simp [setL, lookupL]

/-- C1 (the code violates the claim): with a remote file whose (truncated)
timestamp 5 s is strictly older than the local file's 10 s, the download
reports "Remote file is older" and then still overwrites the local file,
because only the equal-timestamps branch returns early (line 171); the
"remote older" branch (line 175) falls through to the write at line 180.
The local file [9] at 10 s becomes the remote content [7] stamped 5 s. -/
theorem c1_overwrite_despite_older_remote :
    (doDownloadV1 (.node [] 0 0 [("f", .node [7] 0 5000 [])]) ["f"] ["f"]
        [(["f"], .fileE [9] ⟨10, 0⟩)] ⟨99, 0⟩).out = .ok
    ∧ lookupL (doDownloadV1 (.node [] 0 0 [("f", .node [7] 0 5000 [])]) ["f"] ["f"]
        [(["f"], .fileE [9] ⟨10, 0⟩)] ⟨99, 0⟩).fs ["f"] = some (.fileE [7] ⟨5, 0⟩)
    ∧ Event.writeFile ["f"] [7] ∈
        (doDownloadV1 (.node [] 0 0 [("f", .node [7] 0 5000 [])]) ["f"] ["f"]
          [(["f"], .fileE [9] ⟨10, 0⟩)] ⟨99, 0⟩).trace
    ∧ Event.logMsg .stdout "Remote file is older than local file: /f" ∈
        (doDownloadV1 (.node [] 0 0 [("f", .node [7] 0 5000 [])]) ["f"] ["f"]
          [(["f"], .fileE [9] ⟨10, 0⟩)] ⟨99, 0⟩).trace := by
  decide

/-- C2 counterexample: with the remote root absent, doDownload of
src/configurator.go does not return cleanly - it ends the run through
log.Fatalf (line 124). -/
theorem c2_missing_root_is_fatal_v1 :
    (doDownloadV1 (.node [] 0 0 []) ["zzz"] ["zzz"] [] ⟨0, 0⟩).out
      = .fatalExit "Path /zzz not there"
    ∧ (doDownloadV1 (.node [] 0 0 []) ["zzz"] ["zzz"] [] ⟨0, 0⟩).out ≠ .ok := by
  decide

/-- C3 counterexample: a version-conflict rejection of the Delete call
(path /a in the conflict set) is silently discarded - the run still ends
with Outcome.ok, the rejected call is visible in the trace, and the node is
left in the namespace.  Nothing is surfaced to the operator. -/
theorem c3_delete_conflict_silently_ignored :
    (doDeleteV1 [["a"]] (.node [] 0 0 [("a", .node [1] 3 0 [])]) ["a"]).out = .ok
    ∧ Event.deleteCall ["a"] 3 false ∈
        (doDeleteV1 [["a"]] (.node [] 0 0 [("a", .node [1] 3 0 [])]) ["a"]).trace
    ∧ (lookupZ (doDeleteV1 [["a"]] (.node [] 0 0 [("a", .node [1] 3 0 [])]) ["a"]).remote
        ["a"]).isSome = true := by
  decide

/-- C6 counterexample: downloading a file node with modificationTimestamp
1500 ms to an absent local file sets the local modification time to
time.Unix(1500/1000, 0) = 1 s = 1000 ms, not to the exact 1500 ms the claim
requires. -/
theorem c6_mtime_truncated_not_exact :
    (lookupL (doDownloadV1 (.node [] 0 0 [("f", .node [7] 0 1500 [])]) ["f"] ["f"]
        [] ⟨99, 0⟩).fs ["f"]).map LEntry.mtimeOf = some ⟨1, 0⟩
    ∧ GoTime.toMs ⟨1, 0⟩ ≠ 1500 := by
  decide

mutual
theorem delGoEquiv (cf : List ZPath) (p : ZPath) (snap w : ZTree) :
    (doDeleteGoV1 cf p snap w).1 = (doDeleteGoV2 cf p snap w).1 ∧
    (doDeleteGoV1 cf p snap w).2.filter Event.isRemote =
      (doDeleteGoV2 cf p snap w).2.filter Event.isRemote := by
  cases snap with
  | node d v m cs =>
      obtain ⟨h1, h2⟩ := delKidsEquiv cf p cs w
      simp only [doDeleteGoV1, doDeleteGoV2, h1, List.filter_cons, List.filter_append,
        Event.isRemote, h2]
      simp

theorem delKidsEquiv (cf : List ZPath) (p : ZPath) (cs : List (String × ZTree)) (w : ZTree) :
    (doDeleteKidsV1 cf p cs w).1 = (doDeleteKidsV2 cf p cs w).1 ∧
    (doDeleteKidsV1 cf p cs w).2.filter Event.isRemote =
      (doDeleteKidsV2 cf p cs w).2.filter Event.isRemote := by
  cases cs with
  | nil => exact ⟨rfl, rfl⟩
  | cons hd rest =>
      obtain ⟨h1, h2⟩ := delGoEquiv cf (p ++ [hd.1]) hd.2 w
      obtain ⟨h3, h4⟩ := delKidsEquiv cf p rest (doDeleteGoV2 cf (p ++ [hd.1]) hd.2 w).1
      simp only [doDeleteKidsV1, doDeleteKidsV2, List.filter_append, h1, h2, h3, h4]
      exact ⟨trivial, trivial⟩
end

/-- C10: the two doDelete versions are observationally equivalent on the
remote namespace: entered at any path of any namespace state, they issue
the same remote calls (same paths, versions, order and results), leave the
same final remote state and end the same way; only their log lines differ
(standard logger versus stdout). -/
theorem c10_delete_versions_equivalent (cf : List ZPath) (w : ZTree) (p : ZPath) :
    (doDeleteV1 cf w p).trace.filter Event.isRemote =
      (doDeleteV2 cf w p).trace.filter Event.isRemote
    ∧ (doDeleteV1 cf w p).remote = (doDeleteV2 cf w p).remote
    ∧ (doDeleteV1 cf w p).out = (doDeleteV2 cf w p).out := by
  unfold doDeleteV1 doDeleteV2
  cases h : lookupZ w p with
  | none => simp [Event.isRemote]
  | some snap =>
      obtain ⟨h1, h2⟩ := delGoEquiv cf p snap w
      exact ⟨h2, h1, rfl⟩

mutual
theorem delTraceGoV1 (cf : List ZPath) (p : ZPath) (snap w : ZTree) :
    (doDeleteGoV1 cf p snap w).2.filterMap deletedPath = postorder p snap := by
  cases snap with
  | node d v m cs =>
      have hk := delTraceKidsV1 cf p cs w
      simp [doDeleteGoV1, postorder, deletedPath, hk]

theorem delTraceKidsV1 (cf : List ZPath) (p : ZPath) (cs : List (String × ZTree))
    (w : ZTree) :
    (doDeleteKidsV1 cf p cs w).2.filterMap deletedPath = postKids p cs := by
  cases cs with
  | nil => rfl
  | cons hd rest =>
      have h1 := delTraceGoV1 cf (p ++ [hd.1]) hd.2 w
      have h2 := delTraceKidsV1 cf p rest (doDeleteGoV1 cf (p ++ [hd.1]) hd.2 w).1
      simp [doDeleteKidsV1, postKids, h1, h2]
end

/-- Every path a child block of the post-order traversal lists extends the
block's child root. -/
theorem postKids_decomp (p : ZPath) (cs : List (String × ZTree)) :
    ∀ q ∈ postKids p cs, ∃ n c, (n, c) ∈ cs ∧ q ∈ postorder (p ++ [n]) c := by
  induction cs with
  | nil => intro q hq; simp [postKids] at hq
  | cons hd rest ih =>
      intro q hq
      simp only [postKids, List.mem_append] at hq
      cases hq with
      | inl h => exact ⟨hd.1, hd.2, by simp, h⟩
      | inr h =>
          obtain ⟨n, c, hm, hq2⟩ := ih q h
          exact ⟨n, c, List.mem_cons_of_mem _ hm, hq2⟩

mutual
theorem postorder_pre (p : ZPath) (t : ZTree) : ∀ q ∈ postorder p t, p <+: q := by
  cases t with
  | node d v m cs =>
      intro q hq
      simp only [postorder, List.mem_append, List.mem_singleton] at hq
      cases hq with
      | inl h => exact postKids_pre p cs q h
      | inr h => exact h ▸ List.prefix_refl p

theorem postKids_pre (p : ZPath) (cs : List (String × ZTree)) :
    ∀ q ∈ postKids p cs, p <+: q := by
  cases cs with
  | nil => intro q hq; simp [postKids] at hq
  | cons hd rest =>
      intro q hq
      simp only [postKids, List.mem_append] at hq
      cases hq with
      | inl h =>
          exact List.IsPrefix.trans (List.prefix_append p [hd.1])
            (postorder_pre (p ++ [hd.1]) hd.2 q h)
      | inr h => exact postKids_pre p rest q h
end

/-- Every path in a child block strictly extends p (it has the child root as
a prefix, hence is longer than p). -/
theorem postKids_longer (p : ZPath) (cs : List (String × ZTree)) :
    ∀ q ∈ postKids p cs, p.length < q.length := by
  intro q hq
  obtain ⟨n, c, _, hq2⟩ := postKids_decomp p cs q hq
  have h := (postorder_pre (p ++ [n]) c q hq2).length_le
  simp at h
  omega

mutual
theorem postorder_pw (p : ZPath) (t : ZTree) (h : t.wfB = true) :
    (postorder p t).Pairwise (fun a b => ¬(a <+: b ∧ a ≠ b)) := by
  cases t with
  | node d v m cs =>
      simp only [ZTree.wfB, Bool.and_eq_true] at h
      simp only [postorder]
      rw [List.pairwise_append]
      refine ⟨postKids_pw p cs h.1 h.2, List.pairwise_singleton _ _, ?_⟩
      intro a ha b hb
      simp only [List.mem_singleton] at hb
      rintro ⟨hpre, _⟩
      rw [hb] at hpre
      have h1 := postKids_longer p cs a ha
      have h2 := hpre.length_le
      omega

theorem postKids_pw (p : ZPath) (cs : List (String × ZTree))
    (hnd : nodupB (cs.map Prod.fst) = true) (hwf : ZTree.wfKidsB cs = true) :
    (postKids p cs).Pairwise (fun a b => ¬(a <+: b ∧ a ≠ b)) := by
  cases cs with
  | nil => simp [postKids]
  | cons hd rest =>
      simp only [List.map_cons, nodupB, Bool.and_eq_true, decide_eq_true_eq] at hnd
      have hwf2 : hd.2.wfB = true ∧ ZTree.wfKidsB rest = true := by
        cases hd with
        | mk n c => simpa [ZTree.wfKidsB, Bool.and_eq_true] using hwf
      simp only [postKids]
      rw [List.pairwise_append]
      refine ⟨postorder_pw (p ++ [hd.1]) hd.2 hwf2.1, postKids_pw p rest hnd.2 hwf2.2, ?_⟩
      intro a ha b hb
      rintro ⟨hab, _⟩
      obtain ⟨n2, c2, hm2, hb2⟩ := postKids_decomp p rest b hb
      have hb3 : (p ++ [n2]) <+: b := postorder_pre (p ++ [n2]) c2 b hb2
      have ha2 : (p ++ [hd.1]) <+: b :=
        List.IsPrefix.trans (postorder_pre (p ++ [hd.1]) hd.2 a ha) hab
      have hcmp := List.prefix_or_prefix_of_prefix ha2 hb3
      have heq : p ++ [hd.1] = p ++ [n2] := by
        cases hcmp with
        | inl hc => exact hc.eq_of_length (by simp)
        | inr hc => exact (hc.eq_of_length (by simp)).symm
      have : hd.1 = n2 := by
        have := List.append_cancel_left heq
        simpa using this
      exact hnd.1 (this ▸ List.mem_map_of_mem Prod.fst hm2)
end

/-- C5: the recursive deleter issues its delete calls in exact post-order
of the subtree reported at the entry path: the delete of a node appears in
the trace only after the deletes of all of its descendants, and nowhere in
the issued order does a node's delete precede the delete of one of its
strict descendants (no earlier deleted path is a strict prefix of a later
one).  Well-formedness asks only what ZooKeeper guarantees: distinct
sibling names. -/
theorem c5_delete_postorder (cf : List ZPath) (w snap : ZTree) (p : ZPath)
    (hl : lookupZ w p = some snap) (hwf : snap.wfB = true) :
    (doDeleteV1 cf w p).trace.filterMap deletedPath = postorder p snap
    ∧ ((doDeleteV1 cf w p).trace.filterMap deletedPath).Pairwise
        (fun a b => ¬(a <+: b ∧ a ≠ b)) := by
  have ht : (doDeleteV1 cf w p).trace = (doDeleteGoV1 cf p snap w).2 := by
    unfold doDeleteV1
    rw [hl]
  rw [ht, delTraceGoV1]
  exact ⟨rfl, postorder_pw p snap hwf⟩

/-- Witness for C5 at a concrete two-level subtree. -/
theorem c5_delete_postorder_witness :
    (doDeleteV1 [] (ZTree.node [] 0 0
        [("a", ZTree.node [] 1 0 [("x", ZTree.node [5] 2 0 []), ("y", ZTree.node [6] 3 0 [])])])
        ["a"]).trace.filterMap deletedPath
      = postorder ["a"] (ZTree.node [] 1 0 [("x", ZTree.node [5] 2 0 []), ("y", ZTree.node [6] 3 0 [])])
    ∧ ((doDeleteV1 [] (ZTree.node [] 0 0
        [("a", ZTree.node [] 1 0 [("x", ZTree.node [5] 2 0 []), ("y", ZTree.node [6] 3 0 [])])])
        ["a"]).trace.filterMap deletedPath).Pairwise
        (fun a b => ¬(a <+: b ∧ a ≠ b)) :=
  c5_delete_postorder [] _ _ ["a"] rfl (by decide)

mutual
/-- Creating a node that the namespace already holds fails with
"node already exists". -/
theorem zkCreateAt_exists (t : ZTree) (p : ZPath) (nd : List Nat) (n : ZTree)
    (h : lookupZ t p = some n) : zkCreateAt t p nd = .error .nodeExists := by
  cases t with
  | node d v m cs =>
      match p with
      | [] => rfl
      | [n0] =>
          simp only [lookupZ, ZTree.children] at h
          cases ha : lookupAssoc cs n0 with
          | none => rw [ha] at h; simp at h
          | some c =>
              simp only [zkCreateAt, ha, Option.isSome_some, if_true]
      | n0 :: q :: p =>
          simp only [lookupZ, ZTree.children] at h
          cases ha : lookupAssoc cs n0 with
          | none => rw [ha] at h; simp at h
          | some c =>
              rw [ha] at h
              simp only [zkCreateAt]
              rw [zkCreateKids_exists cs n0 (q :: p) nd c n ha h]
              rfl

theorem zkCreateKids_exists (cs : List (String × ZTree)) (n0 : String) (p : ZPath)
    (nd : List Nat) (c n : ZTree) (ha : lookupAssoc cs n0 = some c)
    (h : lookupZ c p = some n) :
    zkCreateKids cs n0 p nd = .error .nodeExists := by
  cases cs with
  | nil => simp [lookupAssoc] at ha
  | cons hd rest =>
      cases hd with
      | mk m0 c0 =>
          simp only [lookupAssoc] at ha
          by_cases hm : m0 = n0
          · rw [if_pos hm] at ha
            injection ha with ha2
            subst ha2
            simp only [zkCreateKids, if_pos hm]
            rw [zkCreateAt_exists c0 p nd n h]
            rfl
          · rw [if_neg hm] at ha
            simp only [zkCreateKids, if_neg hm]
            rw [zkCreateKids_exists rest n0 p nd c n ha h]
            rfl
end

/-- C4: uploading a regular file whose mapped remote path already exists as
a node with children panics with the structural-conflict message, leaves
the remote namespace unchanged, and issues no Set call. -/
theorem c4_structural_conflict_aborts (cf : List ZPath) (w : ZTree) (vp rp : ZPath)
    (content d : List Nat) (v m : Nat) (cs : List (String × ZTree))
    (hl : lookupZ w rp = some (.node d v m cs)) (hne : cs ≠ []) :
    (uploadVisit cf w vp rp (.fileK content)).out
      = .panicked ("Remote path is a dir when a file is expected: " ++ pathStr rp)
    ∧ (uploadVisit cf w vp rp (.fileK content)).remote = w
    ∧ (uploadVisit cf w vp rp (.fileK content)).trace.filter Event.isSet = [] := by
  have hc := zkCreateAt_exists w rp content (.node d v m cs) hl
  have hlen : 0 < cs.length := List.length_pos.mpr hne
  simp only [uploadVisit, hc, hl]
  simp [hlen, Event.isSet]

/-- Witness for C4: a file upload onto the remote directory node /f (one
child) panics, changes nothing remotely and performs no Set. -/
theorem c4_structural_conflict_witness :
    (uploadVisit [] (ZTree.node [] 0 0 [("f", ZTree.node [] 1 0 [("k", ZTree.node [2] 0 0 [])])])
        ["lf"] ["f"] (.fileK [9])).out
      = .panicked ("Remote path is a dir when a file is expected: " ++ pathStr ["f"])
    ∧ (uploadVisit [] (ZTree.node [] 0 0 [("f", ZTree.node [] 1 0 [("k", ZTree.node [2] 0 0 [])])])
        ["lf"] ["f"] (.fileK [9])).remote
      = ZTree.node [] 0 0 [("f", ZTree.node [] 1 0 [("k", ZTree.node [2] 0 0 [])])]
    ∧ (uploadVisit [] (ZTree.node [] 0 0 [("f", ZTree.node [] 1 0 [("k", ZTree.node [2] 0 0 [])])])
        ["lf"] ["f"] (.fileK [9])).trace.filter Event.isSet = [] :=
  c4_structural_conflict_aborts [] _ ["lf"] ["f"] [9] [] 1 0
    [("k", ZTree.node [2] 0 0 [])] rfl (List.cons_ne_nil _ _)

/-- C3 as the code has it: a version conflict on the Set of an upload
overwrite panics (is fatal and surfaced), but the recursive deleter
discards the result of its Delete call entirely, so a version-conflict
rejection on delete is silently ignored and every delete run ends with a
normal outcome. -/
theorem c3_amended_conflict_handling :
    (∀ cf w p, (doDeleteV1 cf w p).out = .ok)
    ∧ (∀ cf w vp rp content d v m,
        lookupZ w rp = some (.node d v m []) → rp ∈ cf →
        (uploadVisit cf w vp rp (.fileK content)).out = .panicked (zerrStr .badVersion)
        ∧ Event.setCall rp content v false ∈ (uploadVisit cf w vp rp (.fileK content)).trace) := by
  constructor
  · intro cf w p
    unfold doDeleteV1
    cases lookupZ w p with
    | none => rfl
    | some snap => rfl
  · intro cf w vp rp content d v m hl hcf
    have hc := zkCreateAt_exists w rp content (.node d v m []) hl
    simp only [uploadVisit, hc, hl]
    simp [hcf]

/-- Witness for C3's amended statement: a conflicted delete still ends ok,
and a conflicted upload Set panics with the version-conflict error. -/
theorem c3_amended_witness :
    (doDeleteV1 [["a"]] (ZTree.node [] 0 0 [("a", ZTree.node [1] 3 0 [])]) ["a"]).out = .ok
    ∧ ((uploadVisit [["f"]] (ZTree.node [] 0 0 [("f", ZTree.node [2] 7 0 [])])
          ["lf"] ["f"] (.fileK [9])).out = .panicked (zerrStr .badVersion)
        ∧ Event.setCall ["f"] [9] 7 false ∈
            (uploadVisit [["f"]] (ZTree.node [] 0 0 [("f", ZTree.node [2] 7 0 [])])
              ["lf"] ["f"] (.fileK [9])).trace) :=
  ⟨c3_amended_conflict_handling.1 [["a"]] _ ["a"],
   c3_amended_conflict_handling.2 [["f"]] _ ["lf"] ["f"] [9] [2] 7 0 rfl (by decide)⟩

/-- C2 as the code has it: with the remote root absent,
src/configurator.go's doDownload terminates the run through log.Fatalf
(reporting "not there") and writes nothing locally, while the
src/unnamed/part_000 variant reports the same and returns cleanly. -/
theorem c2_amended_missing_root (w : ZTree) (sp lp : ZPath) (fs : LocalFS) (now : GoTime)
    (h : lookupZ w sp = none) :
    (doDownloadV1 w sp lp fs now).out = .fatalExit ("Path " ++ pathStr sp ++ " not there")
    ∧ (doDownloadV1 w sp lp fs now).fs = fs
    ∧ (doDownloadV2 w sp lp fs now).out = .ok
    ∧ (doDownloadV2 w sp lp fs now).fs = fs := by
  unfold doDownloadV1 doDownloadV2
  rw [h]
  exact ⟨rfl, rfl, rfl, rfl⟩

/-- Witness for C2's amended statement at a concrete empty namespace. -/
theorem c2_amended_missing_root_witness :
    (doDownloadV1 (ZTree.node [] 0 0 []) ["zzz"] ["d"] [] ⟨0, 0⟩).out
      = .fatalExit ("Path " ++ pathStr ["zzz"] ++ " not there")
    ∧ (doDownloadV1 (ZTree.node [] 0 0 []) ["zzz"] ["d"] [] ⟨0, 0⟩).fs = []
    ∧ (doDownloadV2 (ZTree.node [] 0 0 []) ["zzz"] ["d"] [] ⟨0, 0⟩).out = .ok
    ∧ (doDownloadV2 (ZTree.node [] 0 0 []) ["zzz"] ["d"] [] ⟨0, 0⟩).fs = [] :=
  c2_amended_missing_root (ZTree.node [] 0 0 []) ["zzz"] ["d"] [] ⟨0, 0⟩ rfl

theorem uploadVisit_no_local_mut (cf : List ZPath) (w : ZTree) (vp rp : ZPath)
    (k : EntryKind) :
    (uploadVisit cf w vp rp k).trace.filter Event.isLocalMut = [] := by
  unfold uploadVisit
  repeat' split
  all_goals simp [Event.isLocalMut]

theorem ensureL_no_local_mut (w : ZTree) (p : ZPath) :
    (ensureL w p).2.1.filter Event.isLocalMut = [] := by
  refine ensureL.induct w
    (fun q => (ensureL w q).2.1.filter Event.isLocalMut = []) ?_ ?_ ?_ ?_ ?_ p
  · simp [ensureL]
  · intro x hp r hok w2 hcreate ih
    have hok2 : (ensureL w x.dropLast).2.2 = Outcome.ok := hok
    have hc2 : zkCreateAt (ensureL w x.dropLast).1 x [] = Except.ok w2 := hcreate
    rw [ensureL]
    simp only [dif_neg hp, hok2, hc2]
    simp [List.filter_append, ih, Event.isLocalMut]
  · intro x hp r hok hcreate ih
    have hok2 : (ensureL w x.dropLast).2.2 = Outcome.ok := hok
    have hc2 : zkCreateAt (ensureL w x.dropLast).1 x [] = Except.error ZErr.nodeExists := hcreate
    rw [ensureL]
    simp only [dif_neg hp, hok2, hc2]
    simp [List.filter_append, ih, Event.isLocalMut]
  · intro x hp r hok e hne hcreate ih
    have hok2 : (ensureL w x.dropLast).2.2 = Outcome.ok := hok
    have hc2 : zkCreateAt (ensureL w x.dropLast).1 x [] = Except.error e := hcreate
    rw [ensureL]
    simp only [dif_neg hp, hok2, hc2]
    cases e with
    | nodeExists => exact absurd rfl hne
    | noNode => simp [List.filter_append, ih, Event.isLocalMut]
    | badVersion => simp [List.filter_append, ih, Event.isLocalMut]
    | notEmpty => simp [List.filter_append, ih, Event.isLocalMut]
  · intro x hp r hnok ih
    have hnok2 : ¬(ensureL w x.dropLast).2.2 = Outcome.ok := fun hh => hnok hh
    rw [ensureL]
    simp only [dif_neg hp]
    cases ho : (ensureL w x.dropLast).2.2 with
    | ok => exact absurd ho hnok2
    | fatalExit m => exact ih
    | panicked m => exact ih

mutual
theorem uploadWalk_no_local_mut (cf : List ZPath) (w : ZTree) (vp rp : ZPath) (t : LTree) :
    (uploadWalk cf w vp rp t).trace.filter Event.isLocalMut = [] := by
  cases t with
  | fileT c =>
      simp only [uploadWalk]
      cases h : (uploadVisit cf w vp rp (.fileK c)).out <;>
        simp [h, uploadVisit_no_local_mut]
  | otherT =>
      simp only [uploadWalk]
      cases h : (uploadVisit cf w vp rp .otherK).out <;>
        simp [h, uploadVisit_no_local_mut]
  | dirT cs =>
      simp only [uploadWalk]
      cases h : (uploadVisit cf w vp rp .dirK).out <;>
        simp [h, List.filter_append, uploadVisit_no_local_mut, uploadKids_no_local_mut]

theorem uploadKids_no_local_mut (cf : List ZPath) (w : ZTree) (vp rp : ZPath)
    (cs : List (String × LTree)) :
    (uploadKids cf w vp rp cs).trace.filter Event.isLocalMut = [] := by
  cases cs with
  | nil => simp [uploadKids]
  | cons hd rest =>
      simp only [uploadKids]
      cases h : (uploadWalk cf w (vp ++ [hd.1]) (rp ++ [hd.1]) hd.2).out <;>
        simp [h, List.filter_append, uploadWalk_no_local_mut, uploadKids_no_local_mut]
end

/-- C9: upload is read-only on the local filesystem - in the trace of any
doUpload run (any conflict set, namespace, root paths and local tree) there
is no local mutation event (no mkdir, no file write, no chtimes); the only
local accesses are reads. -/
theorem c9_upload_never_mutates_local (cf : List ZPath) (w : ZTree)
    (srvPre absLocal : ZPath) (t : LTree) :
    (doUpload cf w srvPre absLocal t).trace.filter Event.isLocalMut = [] := by
  unfold doUpload
  cases h : (ensureL w srvPre).2.2 <;>
    simp [h, List.filter_append, ensureL_no_local_mut, uploadWalk_no_local_mut]

/-- C6 as the code has it: downloading a file node to an absent local path
writes the payload and then sets the local modification time to the remote
millisecond timestamp truncated to whole seconds - time.Unix(Mtime/1000, 0),
line 157 - not to the exact millisecond instant.  Because a later run
compares against the same truncated value, a second download of the
unchanged node finds the timestamps equal and performs no local mutation. -/
theorem c6_amended_truncated_mtime (w : ZTree) (sp lp : ZPath) (fs : LocalFS)
    (now : GoTime) (data : List Nat) (ver mt : Nat) (cs : List (String × ZTree))
    (hl : lookupZ w sp = some (.node data ver mt cs))
    (hd : data ≠ []) (habs : lookupL fs lp = none)
    (hpar : parentOkB fs lp = true) (hlp : lp ≠ []) :
    (doDownloadV1 w sp lp fs now).out = .ok
    ∧ lookupL (doDownloadV1 w sp lp fs now).fs lp = some (.fileE data ⟨mt / 1000, 0⟩)
    ∧ (doDownloadV1 w sp lp (doDownloadV1 w sp lp fs now).fs now).trace.filter
        Event.isLocalMut = [] := by
  have hlen : ¬data.length = 0 := by simpa using hd
  have hemp : lp.isEmpty = false := by
    cases lp with
    | nil => exact absurd rfl hlp
    | cons a l => rfl
  have hwr : osWriteFile fs lp data now
      = (setL fs lp (.fileE data now), [Event.writeFile lp data], .ok) := by
    unfold osWriteFile
    rw [habs]
    simp [hpar, hemp]
  have hch : osChtimes (setL fs lp (.fileE data now)) lp ⟨mt / 1000, 0⟩
      = (setL (setL fs lp (.fileE data now)) lp (.fileE data ⟨mt / 1000, 0⟩),
         [Event.chtimesCall lp ⟨mt / 1000, 0⟩], .ok) := by
    unfold osChtimes
    rw [lookupL_setL_self]
  have h1 : doDownloadV1 w sp lp fs now
      = doDownloadGoV1 sp lp fs now (.node data ver mt cs) := by
    unfold doDownloadV1; rw [hl]
  have h2 : doDownloadGoV1 sp lp fs now (.node data ver mt cs)
      = dlWriteV1 fs lp data ⟨mt / 1000, 0⟩ now
          ([Event.getData sp true,
            Event.logMsg .stdlog ("Remote file was modified on: " ++ timeStr ⟨mt / 1000, 0⟩)]
           ++ [Event.statCall lp false, Event.logMsg .stdlog "Local file does not exist"]) := by
    rw [doDownloadGoV1]
    simp only [if_neg hlen, habs]
  have hout : (doDownloadV1 w sp lp fs now).out = .ok := by
    rw [h1, h2]
    unfold dlWriteV1
    rw [hwr]
    simp only [hch]
  have hfs : (doDownloadV1 w sp lp fs now).fs
      = setL (setL fs lp (.fileE data now)) lp (.fileE data ⟨mt / 1000, 0⟩) := by
    rw [h1, h2]
    unfold dlWriteV1
    rw [hwr]
    simp only [hch]
  refine ⟨hout, by rw [hfs, lookupL_setL_self], ?_⟩
  rw [hfs]
  have h4 : doDownloadV1 w sp lp
        (setL (setL fs lp (.fileE data now)) lp (.fileE data ⟨mt / 1000, 0⟩)) now
      = doDownloadGoV1 sp lp
          (setL (setL fs lp (.fileE data now)) lp (.fileE data ⟨mt / 1000, 0⟩)) now
          (.node data ver mt cs) := by
    unfold doDownloadV1; rw [hl]
  rw [h4, doDownloadGoV1]
  simp only [if_neg hlen, lookupL_setL_self]
  simp [LEntry.mtimeOf, Event.isLocalMut]

/-- Witness for C6's amended statement: remote timestamp 1500 ms becomes
the truncated local time ⟨1, 0⟩ and the repeated run writes nothing. -/
theorem c6_amended_truncated_mtime_witness :
    (doDownloadV1 (ZTree.node [] 0 0 [("f", ZTree.node [7] 0 1500 [])])
        ["f"] ["f"] [] ⟨99, 0⟩).out = .ok
    ∧ lookupL (doDownloadV1 (ZTree.node [] 0 0 [("f", ZTree.node [7] 0 1500 [])])
        ["f"] ["f"] [] ⟨99, 0⟩).fs ["f"] = some (.fileE [7] ⟨1500 / 1000, 0⟩)
    ∧ (doDownloadV1 (ZTree.node [] 0 0 [("f", ZTree.node [7] 0 1500 [])]) ["f"] ["f"]
        (doDownloadV1 (ZTree.node [] 0 0 [("f", ZTree.node [7] 0 1500 [])])
          ["f"] ["f"] [] ⟨99, 0⟩).fs ⟨99, 0⟩).trace.filter Event.isLocalMut = [] :=
  c6_amended_truncated_mtime (ZTree.node [] 0 0 [("f", ZTree.node [7] 0 1500 [])])
    ["f"] ["f"] [] ⟨99, 0⟩ [7] 0 1500 [] rfl (by decide) rfl (by decide) (by decide)

theorem validSegB_spec (s : GoStr) (h : validSegB s = true) :
    s ≠ [] ∧ '/' ∉ s ∧ s ≠ ['.'] ∧ s ≠ ['.', '.'] := by
  simp only [validSegB, Bool.and_eq_true, decide_eq_true_eq] at h
  exact ⟨h.1.1.1, h.1.1.2, h.1.2, h.2⟩

theorem splitSlash_ne_nil (s : GoStr) : splitSlash s ≠ [] := by
  cases s with
  | nil => simp [splitSlash]
  | cons c rest =>
      rw [splitSlash]
      by_cases hc : c = '/'
      · simp [hc]
      · simp only [if_neg hc]
        cases splitSlash rest with
        | nil => simp
        | cons seg segs => simp

theorem splitSlash_no_slash (s : GoStr) (h : '/' ∉ s) : splitSlash s = [s] := by
  induction s with
  | nil => rfl
  | cons c rest ih =>
      have hc : ¬c = '/' := by
        intro hh; exact h (hh ▸ List.mem_cons_self c rest)
      have hr : '/' ∉ rest := fun hh => h (List.mem_cons_of_mem c hh)
      rw [splitSlash, if_neg hc, ih hr]

theorem splitSlash_append (xs ys : GoStr) (h : '/' ∉ xs) :
    splitSlash (xs ++ '/' :: ys) = xs :: splitSlash ys := by
  induction xs with
  | nil => simp [splitSlash]
  | cons c rest ih =>
      have hc : ¬c = '/' := by
        intro hh; exact h (hh ▸ List.mem_cons_self c rest)
      have hr : '/' ∉ rest := fun hh => h (List.mem_cons_of_mem c hh)
      rw [List.cons_append, splitSlash, if_neg hc, ih hr]

theorem splitSlash_joinSegs (segs : List GoStr) (hne : segs ≠ [])
    (h : ∀ s ∈ segs, '/' ∉ s) : splitSlash (joinSegs segs) = segs := by
  induction segs with
  | nil => exact absurd rfl hne
  | cons a rest ih =>
      cases rest with
      | nil => exact splitSlash_no_slash a (h a (List.mem_cons_self a []))
      | cons b rest2 =>
          rw [joinSegs, splitSlash_append a _ (h a (List.mem_cons_self a _))]
          rw [ih (List.cons_ne_nil b rest2) (fun s hs => h s (List.mem_cons_of_mem a hs))]

theorem splitSlash_joinSegs_append (segs : List GoStr) (ys : GoStr) (hne : segs ≠ [])
    (h : ∀ s ∈ segs, '/' ∉ s) :
    splitSlash (joinSegs segs ++ '/' :: ys) = segs ++ splitSlash ys := by
  induction segs with
  | nil => exact absurd rfl hne
  | cons a rest ih =>
      cases rest with
      | nil =>
          rw [joinSegs, splitSlash_append a ys (h a (List.mem_cons_self a []))]
          rfl
      | cons b rest2 =>
          rw [joinSegs, List.append_assoc, List.cons_append,
            splitSlash_append a _ (h a (List.mem_cons_self a _))]
          rw [show (joinSegs (b :: rest2) ++ '/' :: ys : GoStr)
                = joinSegs (b :: rest2) ++ '/' :: ys from rfl] at *
          rw [ih (List.cons_ne_nil b rest2) (fun s hs => h s (List.mem_cons_of_mem a hs))]
          rfl

theorem cleanAbs_valid (segs : List GoStr) (acc : List GoStr)
    (h : ∀ s ∈ segs, s = [] ∨ validSegB s = true) :
    cleanAbs acc segs = acc ++ segs.filter (fun s => !s.isEmpty) := by
  induction segs generalizing acc with
  | nil => simp [cleanAbs]
  | cons a rest ih =>
      cases h a (List.mem_cons_self a rest) with
      | inl ha =>
          subst ha
          rw [cleanAbs, if_pos (Or.inl rfl)]
          rw [ih acc (fun s hs => h s (List.mem_cons_of_mem _ hs))]
          simp
      | inr ha =>
          obtain ⟨h1, _, h3, h4⟩ := validSegB_spec a ha
          rw [cleanAbs, if_neg (by simp [h1, h3]), if_neg h4]
          rw [ih (acc ++ [a]) (fun s hs => h s (List.mem_cons_of_mem _ hs))]
          have : a.isEmpty = false := by
            cases a with
            | nil => exact absurd rfl h1
            | cons x l => rfl
          simp [List.filter_cons, this]

theorem joinSegs_ne_nil (cs : List GoStr) (hne : cs ≠ [])
    (h : ∀ s ∈ cs, validSegB s = true) : joinSegs cs ≠ [] := by
  cases cs with
  | nil => exact absurd rfl hne
  | cons a rest =>
      cases rest with
      | nil =>
          exact (validSegB_spec a (h a (List.mem_cons_self a []))).1
      | cons b rest2 =>
          rw [joinSegs]
          cases a with
          | nil => simp
          | cons x l => simp

theorem joinSegs_append (ls cs : List GoStr) (hl : ls ≠ []) (hc : cs ≠ []) :
    joinSegs (ls ++ cs) = joinSegs ls ++ '/' :: joinSegs cs := by
  induction ls with
  | nil => exact absurd rfl hl
  | cons a rest ih =>
      cases rest with
      | nil =>
          cases cs with
          | nil => exact absurd rfl hc
          | cons b rest2 => rw [List.singleton_append, joinSegs]; rfl
      | cons b rest2 =>
          calc joinSegs ((a :: b :: rest2) ++ cs)
              = a ++ '/' :: joinSegs ((b :: rest2) ++ cs) := rfl
            _ = a ++ '/' :: (joinSegs (b :: rest2) ++ '/' :: joinSegs cs) := by
                  rw [ih (List.cons_ne_nil b rest2)]
            _ = (a ++ '/' :: joinSegs (b :: rest2)) ++ '/' :: joinSegs cs := by
                  simp [List.append_assoc]
            _ = joinSegs (a :: b :: rest2) ++ '/' :: joinSegs cs := rfl

theorem valid_no_slash (cs : List GoStr) (h : ∀ s ∈ cs, validSegB s = true) :
    ∀ s ∈ cs, '/' ∉ s :=
  fun s hs => (validSegB_spec s (h s hs)).2.1

theorem valid_or_empty (cs : List GoStr) (h : ∀ s ∈ cs, validSegB s = true) :
    ∀ s ∈ cs, s = [] ∨ validSegB s = true :=
  fun s hs => Or.inr (h s hs)

theorem filter_valid (cs : List GoStr) (h : ∀ s ∈ cs, validSegB s = true) :
    cs.filter (fun s => !s.isEmpty) = cs := by
  induction cs with
  | nil => rfl
  | cons a rest ih =>
      have h1 := (validSegB_spec a (h a (List.mem_cons_self a rest))).1
      have : a.isEmpty = false := by
        cases a with
        | nil => exact absurd rfl h1
        | cons x l => rfl
      simp [List.filter_cons, this, ih (fun s hs => h s (List.mem_cons_of_mem _ hs))]

theorem goClean_rooted (rest : GoStr) :
    goClean ('/' :: rest) = '/' :: joinSegs (cleanAbs [] (splitSlash ('/' :: rest))) := by
  rw [goClean, if_neg (List.cons_ne_nil _ _),
    if_pos (show ('/' :: rest).head? = some '/' from rfl)]

theorem splitSlash_cons_slash (rest : GoStr) :
    splitSlash ('/' :: rest) = [] :: splitSlash rest := by
  rw [splitSlash, if_pos rfl]

theorem cleanAbs_skip_empty (acc : List GoStr) (rest : List GoStr) :
    cleanAbs acc ([] :: rest) = cleanAbs acc rest := by
  rw [cleanAbs, if_pos (Or.inl rfl)]

theorem renderAbs_ne_nil (cs : List GoStr) : renderAbs cs ≠ [] := by
  rw [renderAbs]; exact List.cons_ne_nil _ _

/-- Cleaning "/rs-components/cs-components" yields the canonical rendering
of rs ++ cs. -/
theorem goClean_join_abs (rs cs : List GoStr)
    (hr : ∀ s ∈ rs, validSegB s = true) (hc : ∀ s ∈ cs, validSegB s = true)
    (hcne : cs ≠ []) :
    goClean (renderAbs rs ++ '/' :: joinSegs cs) = renderAbs (rs ++ cs) := by
  have hkey : (renderAbs rs ++ '/' :: joinSegs cs : GoStr)
      = '/' :: (joinSegs rs ++ '/' :: joinSegs cs) := rfl
  rw [hkey, goClean_rooted, splitSlash_cons_slash]
  by_cases hrs : rs = []
  · subst hrs
    have h0 : (joinSegs ([] : List GoStr) ++ '/' :: joinSegs cs : GoStr)
        = '/' :: joinSegs cs := rfl
    rw [h0, splitSlash_cons_slash,
      splitSlash_joinSegs cs hcne (valid_no_slash cs hc)]
    rw [cleanAbs_skip_empty, cleanAbs_skip_empty,
      cleanAbs_valid cs [] (valid_or_empty cs hc), filter_valid cs hc]
    simp [renderAbs]
  · rw [splitSlash_joinSegs_append rs (joinSegs cs) hrs (valid_no_slash rs hr),
      splitSlash_joinSegs cs hcne (valid_no_slash cs hc)]
    rw [cleanAbs_skip_empty]
    have hv : ∀ s ∈ rs ++ cs, s = [] ∨ validSegB s = true := by
      intro s hs
      rcases List.mem_append.mp hs with h1 | h1
      · exact Or.inr (hr s h1)
      · exact Or.inr (hc s h1)
    have hvv : ∀ s ∈ rs ++ cs, validSegB s = true := by
      intro s hs
      rcases List.mem_append.mp hs with h1 | h1
      · exact hr s h1
      · exact hc s h1
    rw [cleanAbs_valid (rs ++ cs) [] hv, filter_valid (rs ++ cs) hvv]
    simp [renderAbs]

/-- Cleaning "/rs-components//cs-components" (rooted suffix, double slash)
also yields the canonical rendering of rs ++ cs. -/
theorem goClean_join_abs_rooted (rs cs : List GoStr)
    (hr : ∀ s ∈ rs, validSegB s = true) (hc : ∀ s ∈ cs, validSegB s = true)
    (hcne : cs ≠ []) :
    goClean (renderAbs rs ++ '/' :: ('/' :: joinSegs cs)) = renderAbs (rs ++ cs) := by
  have hkey : (renderAbs rs ++ '/' :: ('/' :: joinSegs cs) : GoStr)
      = '/' :: (joinSegs rs ++ '/' :: ('/' :: joinSegs cs)) := rfl
  rw [hkey, goClean_rooted, splitSlash_cons_slash]
  by_cases hrs : rs = []
  · subst hrs
    have h0 : (joinSegs ([] : List GoStr) ++ '/' :: ('/' :: joinSegs cs) : GoStr)
        = '/' :: ('/' :: joinSegs cs) := rfl
    rw [h0, splitSlash_cons_slash, splitSlash_cons_slash,
      splitSlash_joinSegs cs hcne (valid_no_slash cs hc)]
    rw [cleanAbs_skip_empty, cleanAbs_skip_empty, cleanAbs_skip_empty,
      cleanAbs_valid cs [] (valid_or_empty cs hc), filter_valid cs hc]
    simp [renderAbs]
  · rw [splitSlash_joinSegs_append rs ('/' :: joinSegs cs) hrs (valid_no_slash rs hr),
      splitSlash_cons_slash, splitSlash_joinSegs cs hcne (valid_no_slash cs hc)]
    rw [cleanAbs_skip_empty]
    have hv : ∀ s ∈ rs ++ [] :: cs, s = [] ∨ validSegB s = true := by
      intro s hs
      rcases List.mem_append.mp hs with h1 | h1
      · exact Or.inr (hr s h1)
      · rcases List.mem_cons.mp h1 with h2 | h2
        · exact Or.inl h2
        · exact Or.inr (hc s h2)
    rw [cleanAbs_valid (rs ++ [] :: cs) [] hv]
    rw [List.filter_append, filter_valid rs hr]
    have : ([] :: cs : List GoStr).filter (fun s => !s.isEmpty) = cs := by
      rw [List.filter_cons]
      simp only [List.isEmpty_nil, Bool.not_true, Bool.false_eq_true, if_false]
      exact filter_valid cs hc
    rw [this]
    simp [renderAbs]

theorem renderAbs_drop (ls cs : List GoStr) (hls : ls ≠ []) (hcne : cs ≠ []) :
    (renderAbs (ls ++ cs)).drop (renderAbs ls).length = '/' :: joinSegs cs := by
  have h : renderAbs (ls ++ cs) = renderAbs ls ++ '/' :: joinSegs cs := by
    rw [renderAbs, joinSegs_append ls cs hls hcne, renderAbs]
    rfl
  rw [h, List.drop_left]

/-- The upload-side path computation (line 73) on canonical component
paths: stripping the local root and joining onto the remote root maps the
components across. -/
theorem toRemote_renderAbs (ls rs cs : List GoStr)
    (hl : ∀ s ∈ ls, validSegB s = true) (hr : ∀ s ∈ rs, validSegB s = true)
    (hc : ∀ s ∈ cs, validSegB s = true) (hcne : cs ≠ []) :
    toRemote (renderAbs ls) (renderAbs rs) (renderAbs (ls ++ cs)) = renderAbs (rs ++ cs) := by
  by_cases hls : ls = []
  · subst hls
    have hdrop : (renderAbs ([] ++ cs)).drop (renderAbs ([] : List GoStr)).length
        = joinSegs cs := by
      simp only [List.nil_append, renderAbs]
      rfl
    rw [toRemote, hdrop, goJoin, if_neg (renderAbs_ne_nil rs),
      if_neg (joinSegs_ne_nil cs hcne hc)]
    exact goClean_join_abs rs cs hr hc hcne
  · rw [toRemote, renderAbs_drop ls cs hls hcne, goJoin, if_neg (renderAbs_ne_nil rs),
      if_neg (List.cons_ne_nil '/' (joinSegs cs))]
    exact goClean_join_abs_rooted rs cs hr hc hcne

/-- The download-side mapping is literally the same computation with the
roots swapped. -/
theorem toLocal_eq_toRemote_swap (a b c : GoStr) :
    toLocal a b c = toRemote b a c := rfl

theorem goJoin_snoc (xs : List GoStr) (c : GoStr)
    (hx : ∀ s ∈ xs, validSegB s = true) (hc : validSegB c = true) :
    goJoin (renderAbs xs) c = renderAbs (xs ++ [c]) := by
  have hcne : c ≠ [] := (validSegB_spec c hc).1
  have hone : ∀ s ∈ [c], validSegB s = true := by
    intro s hs
    have h2 : s = c := List.mem_singleton.mp hs
    rw [h2]; exact hc
  rw [goJoin, if_neg (renderAbs_ne_nil xs), if_neg hcne]
  have : ('/' :: c : GoStr) = '/' :: joinSegs [c] := rfl
  rw [show (renderAbs xs ++ '/' :: c : GoStr) = renderAbs xs ++ '/' :: joinSegs [c] from rfl]
  exact goClean_join_abs xs [c] hx hone (List.cons_ne_nil c [])

/-- The incremental per-child joins of the download reconciler (lines
148-151) compose to the same canonical path. -/
theorem foldl_goJoin_renderAbs (cs : List GoStr) :
    ∀ xs, (∀ s ∈ xs, validSegB s = true) → (∀ s ∈ cs, validSegB s = true) →
    List.foldl goJoin (renderAbs xs) cs = renderAbs (xs ++ cs) := by
  induction cs with
  | nil => intro xs _ _; simp
  | cons c rest ih =>
      intro xs hx hc
      rw [List.foldl_cons, goJoin_snoc xs c hx (hc c (List.mem_cons_self c rest))]
      rw [ih (xs ++ [c])
        (by
          intro s hs
          rcases List.mem_append.mp hs with h1 | h1
          · exact hx s h1
          · have h2 : s = c := List.mem_singleton.mp h1
            rw [h2]
            exact hc c (List.mem_cons_self c rest))
        (fun s hs => hc s (List.mem_cons_of_mem c hs))]
      simp

/-- C7: on canonical absolute roots and component suffixes the path mapping
is a bijection between the two namespaces: the upload-side computation
(line 73) sends localRoot ++ suffix to remoteRoot ++ suffix, the symmetric
computation sends it back, both round trips are identities, and the
download side's incremental path.Join chain (lines 148-151) realizes the
same mapping. -/
theorem c7_path_mapping_bijection (ls rs cs : List GoStr)
    (hl : ∀ s ∈ ls, validSegB s = true) (hr : ∀ s ∈ rs, validSegB s = true)
    (hc : ∀ s ∈ cs, validSegB s = true) (hcne : cs ≠ []) :
    toRemote (renderAbs ls) (renderAbs rs) (renderAbs (ls ++ cs)) = renderAbs (rs ++ cs)
    ∧ toLocal (renderAbs ls) (renderAbs rs) (renderAbs (rs ++ cs)) = renderAbs (ls ++ cs)
    ∧ toLocal (renderAbs ls) (renderAbs rs)
        (toRemote (renderAbs ls) (renderAbs rs) (renderAbs (ls ++ cs))) = renderAbs (ls ++ cs)
    ∧ toRemote (renderAbs ls) (renderAbs rs)
        (toLocal (renderAbs ls) (renderAbs rs) (renderAbs (rs ++ cs))) = renderAbs (rs ++ cs)
    ∧ List.foldl goJoin (renderAbs ls) cs = renderAbs (ls ++ cs)
    ∧ List.foldl goJoin (renderAbs rs) cs = renderAbs (rs ++ cs) := by
  have h1 := toRemote_renderAbs ls rs cs hl hr hc hcne
  have h2 : toLocal (renderAbs ls) (renderAbs rs) (renderAbs (rs ++ cs))
      = renderAbs (ls ++ cs) := by
    rw [toLocal_eq_toRemote_swap]
    exact toRemote_renderAbs rs ls cs hr hl hc hcne
  refine ⟨h1, h2, ?_, ?_, ?_, ?_⟩
  · rw [h1, h2]
  · rw [h2, h1]
  · exact foldl_goJoin_renderAbs cs ls hl hc
  · exact foldl_goJoin_renderAbs cs rs hr hc

/-- Witness for C7 at localRoot /l, remoteRoot /r and suffix a/b. -/
theorem c7_path_mapping_bijection_witness :
    toRemote (renderAbs [['l']]) (renderAbs [['r']])
        (renderAbs ([['l']] ++ [['a'], ['b']])) = renderAbs ([['r']] ++ [['a'], ['b']])
    ∧ toLocal (renderAbs [['l']]) (renderAbs [['r']])
        (renderAbs ([['r']] ++ [['a'], ['b']])) = renderAbs ([['l']] ++ [['a'], ['b']])
    ∧ toLocal (renderAbs [['l']]) (renderAbs [['r']])
        (toRemote (renderAbs [['l']]) (renderAbs [['r']])
          (renderAbs ([['l']] ++ [['a'], ['b']]))) = renderAbs ([['l']] ++ [['a'], ['b']])
    ∧ toRemote (renderAbs [['l']]) (renderAbs [['r']])
        (toLocal (renderAbs [['l']]) (renderAbs [['r']])
          (renderAbs ([['r']] ++ [['a'], ['b']]))) = renderAbs ([['r']] ++ [['a'], ['b']])
    ∧ List.foldl goJoin (renderAbs [['l']]) [['a'], ['b']]
        = renderAbs ([['l']] ++ [['a'], ['b']])
    ∧ List.foldl goJoin (renderAbs [['r']]) [['a'], ['b']]
        = renderAbs ([['r']] ++ [['a'], ['b']]) :=
  c7_path_mapping_bijection [['l']] [['r']] [['a'], ['b']]
    (by decide) (by decide) (by decide) (by decide)

/-- path.Dir on a canonical absolute path drops exactly the last component:
the measure the ensureRemotePath recursion (lines 38-52) descends on. -/
theorem goDir_renderAbs (cs : List GoStr) (h : ∀ s ∈ cs, validSegB s = true)
    (hne : cs ≠ []) : goDir (renderAbs cs) = renderAbs cs.dropLast := by
  have hsub : ∀ s ∈ cs.dropLast, validSegB s = true :=
    fun s hs => h s (List.dropLast_subset cs hs)
  have hsp : splitSlash (renderAbs cs) = [] :: cs := by
    rw [renderAbs, splitSlash_cons_slash,
      splitSlash_joinSegs cs hne (valid_no_slash cs h)]
  simp only [goDir]
  rw [hsp]
  have hlen2 : ¬(([] : GoStr) :: cs).length ≤ 1 := by
    simp only [List.length_cons]
    have : 0 < cs.length := List.length_pos.mpr hne
    omega
  rw [if_neg hlen2, List.dropLast_cons_of_ne_nil hne]
  cases hdl : cs.dropLast with
  | nil =>
      have h1 : (joinSegs [([] : GoStr)] ++ ['/'] : GoStr) = ['/'] := rfl
      rw [h1]
      rfl
  | cons d ds =>
      have hvalid : ∀ s ∈ (d :: ds : List GoStr), validSegB s = true := hdl ▸ hsub
      have hdsne : (d :: ds : List GoStr) ≠ [] := List.cons_ne_nil d ds
      have h1 : (joinSegs ([] :: d :: ds) ++ ['/'] : GoStr)
          = '/' :: (joinSegs (d :: ds) ++ '/' :: []) := rfl
      rw [h1, goClean_rooted, splitSlash_cons_slash,
        splitSlash_joinSegs_append (d :: ds) [] hdsne (valid_no_slash (d :: ds) hvalid)]
      rw [cleanAbs_skip_empty]
      have hv : ∀ s ∈ (d :: ds) ++ splitSlash [], s = [] ∨ validSegB s = true := by
        intro s hs
        rcases List.mem_append.mp hs with h2 | h2
        · exact Or.inr (hvalid s h2)
        · simp only [splitSlash, List.mem_singleton] at h2
          exact Or.inl h2
      rw [cleanAbs_valid _ [] hv, List.filter_append, filter_valid (d :: ds) hvalid]
      have h2 : (splitSlash [] : List GoStr).filter (fun s => !s.isEmpty) = [] := rfl
      rw [h2, List.nil_append, List.append_nil, renderAbs]

/-- Iterating path.Dir from a canonical n-component absolute path reaches
the namespace root "/" in exactly n steps. -/
theorem dirIter_renderAbs (n : Nat) :
    ∀ cs : List GoStr, cs.length = n → (∀ s ∈ cs, validSegB s = true) →
    dirIter n (renderAbs cs) = renderAbs [] := by
  induction n with
  | zero =>
      intro cs hlen _
      have : cs = [] := List.length_eq_zero.mp hlen
      rw [this, dirIter]
  | succ n ih =>
      intro cs hlen h
      have hne : cs ≠ [] := by
        intro hh
        rw [hh] at hlen
        simp at hlen
      rw [dirIter, goDir_renderAbs cs h hne]
      refine ih cs.dropLast ?_ (fun s hs => h s (List.dropLast_subset cs hs))
      rw [List.length_dropLast, hlen]
      rfl

/-- The fueled ensure recursion completes on a canonical n-component
absolute path with fuel n + 1. -/
theorem ensureFuel_renderAbs (n : Nat) :
    ∀ cs : List GoStr, cs.length = n → (∀ s ∈ cs, validSegB s = true) →
    (ensureFuel (n + 1) (renderAbs cs)).isSome = true := by
  induction n with
  | zero =>
      intro cs hlen _
      have : cs = [] := List.length_eq_zero.mp hlen
      rw [this]
      rfl
  | succ n ih =>
      intro cs hlen h
      have hne : cs ≠ [] := by
        intro hh
        rw [hh] at hlen
        simp at hlen
      have hroot : renderAbs cs ≠ ['/'] := by
        rw [renderAbs]
        intro hh
        exact joinSegs_ne_nil cs hne h (by injection hh)
      rw [ensureFuel, if_neg hroot, goDir_renderAbs cs h hne]
      have hdlen : cs.dropLast.length = n := by
        rw [List.length_dropLast, hlen]
        rfl
      have hih := ih cs.dropLast hdlen (fun s hs => h s (List.dropLast_subset cs hs))
      cases he : ensureFuel (n + 1) (renderAbs cs.dropLast) with
      | none => rw [he] at hih; simp at hih
      | some l => simp [he]

/-- C8: on a canonical absolute path each path.Dir step of ensureRemotePath
drops exactly one component, so the recursion reaches the namespace-root
base case "/" after as many steps as there are components and the fueled
recursion completes with fuel length + 1; a relative path such as "." is a
fixed point of path.Dir, where no such decrease exists. -/
theorem c8_ensure_terminates (cs : List GoStr) (h : ∀ s ∈ cs, validSegB s = true) :
    (cs ≠ [] → goDir (renderAbs cs) = renderAbs cs.dropLast)
    ∧ dirIter cs.length (renderAbs cs) = renderAbs []
    ∧ (ensureFuel (cs.length + 1) (renderAbs cs)).isSome = true
    ∧ goDir ['.'] = ['.'] :=
  ⟨fun hne => goDir_renderAbs cs h hne,
   dirIter_renderAbs cs.length cs rfl h,
   ensureFuel_renderAbs cs.length cs rfl h,
   rfl⟩

/-- Witness for C8 at the two-component path /a/b. -/
theorem c8_ensure_terminates_witness :
    (([['a'], ['b']] : List GoStr) ≠ []
        → goDir (renderAbs [['a'], ['b']]) = renderAbs ([['a'], ['b']] : List GoStr).dropLast)
    ∧ dirIter ([['a'], ['b']] : List GoStr).length (renderAbs [['a'], ['b']]) = renderAbs []
    ∧ (ensureFuel (([['a'], ['b']] : List GoStr).length + 1)
        (renderAbs [['a'], ['b']])).isSome = true
    ∧ goDir ['.'] = ['.'] :=
  c8_ensure_terminates [['a'], ['b']] (by decide)

end Configurator
